import Mathlib

/-!
Shallow embedding of the QueueCTL job-queue engine (`src/queuectl/queuectl.py`).

The SQLite database is modelled as a `Store` holding the three tables:
`jobs` (active jobs, primary key `id`), `dlq` (dead-letter queue, primary
key `id`) and `config` (key/value settings).  Rows are kept in rowid
(insertion) order in a `List`; `INSERT OR REPLACE` removes any row with the
same primary key and appends the fresh row, matching SQLite's behaviour of
deleting the old row and inserting a new one with a fresh rowid.

Timestamps (`enqueued_at`, `next_run`, `now`) are integers; `enqueued_at`
is stored as a SQLite `CURRENT_TIMESTAMP` string in the source, whose
lexicographic order agrees with chronological order, so an integer
timestamp is an order-faithful model.  Config values are always written as
`str(int)` and read back through `int(...)`, so the config table is
modelled as a `String → Int` association list.
-/

namespace QueueCTL

/-- State column of an active job row: the source only ever stores the
strings `pending` and `processing`. -/
inductive JobState where
  | pending
  | processing
deriving DecidableEq, Repr

/-- A row of the `jobs` table. -/
structure Job where
  id : String
  command : String
  max_retries : Int
  attempts : Nat
  state : JobState
  enqueued_at : Int
  next_run : Int
deriving DecidableEq, Repr

/-- A row of the `dlq` table. -/
structure DlqRecord where
  id : String
  command : String
  max_retries : Int
  attempts : Nat
  failed_at : Int
deriving DecidableEq, Repr

/-- The whole database: the three tables of `init_db`. -/
structure Store where
  jobs : List Job
  dlq : List DlqRecord
  config : List (String × Int)
deriving DecidableEq, Repr

/-- The store right after `init_db` on a fresh database: empty tables and
the `DEFAULT_CONFIG` rows `backoff_base = 2`, `max_retries = 3`. -/
def initStore : Store :=
  { jobs := [], dlq := [], config := [("backoff_base", 2), ("max_retries", 3)] }

/-- Lookup in the `config` table (`get_config`): the first row whose key
matches, if any. -/
def get_config (s : Store) (key : String) : Option Int :=
  (s.config.find? (fun kv => kv.1 = key)).map (fun kv => kv.2)

/-- The idiom `int(get_config(k) or DEFAULT_CONFIG[k])`: the stored value
when the key is present (stored values are non-empty integer strings,
hence truthy), the default otherwise. -/
def get_config_or (s : Store) (key : String) (dflt : Int) : Int :=
  match get_config s key with
  | some v => v
  | none => dflt

/-- A validated submission payload: `id` and `command` are required,
`max_retries` optional (`job.get("max_retries", ...)`). -/
structure Payload where
  id : String
  command : String
  max_retries : Option Int
deriving DecidableEq, Repr

/-- The `enqueue` operation: resolve `max_retries` from the payload or the
config default, then `INSERT OR REPLACE INTO jobs` a row with
`attempts = 0`, `state = 'pending'`, `next_run = 0`; `enqueued_at` takes
the implicit `CURRENT_TIMESTAMP` default `now`. -/
def enqueue (s : Store) (p : Payload) (now : Int) : Store :=
  let mr := p.max_retries.getD (get_config_or s "max_retries" 3)
  let newJob : Job :=
    { id := p.id, command := p.command, max_retries := mr, attempts := 0,
      state := .pending, enqueued_at := now, next_run := 0 }
  { s with jobs := (s.jobs.filter (fun j => j.id ≠ p.id)) ++ [newJob] }

/-- Eligibility predicate of the claim query:
`state='pending' AND next_run <= now`. -/
def Job.eligible (j : Job) (now : Int) : Bool :=
  decide (j.state = JobState.pending ∧ j.next_run ≤ now)

/-- The `ORDER BY enqueued_at LIMIT 1` selection: the first row attaining
the minimal `enqueued_at` (SQLite breaks ties by rowid, i.e. list order). -/
def pickOldest : List Job → Option Job
  | [] => none
  | j :: rest =>
    match pickOldest rest with
    | none => some j
    | some k => if k.enqueued_at < j.enqueued_at then some k else some j

/-- The row of job data returned by a successful claim:
`{id, command, max_retries, attempts}`. -/
structure ClaimResult where
  id : String
  command : String
  max_retries : Int
  attempts : Nat
deriving DecidableEq, Repr

/-- Row update of `UPDATE jobs SET state='processing' WHERE id=?`. -/
def markProcessing (jobs : List Job) (i : String) : List Job :=
  jobs.map (fun k => if k.id = i then { k with state := .processing } else k)

/-- The claim transaction of `get_next_job` (the committed success path):
select the oldest pending job with `next_run <= now`; if none, return
`none` with the store unchanged; otherwise mark that id `processing` and
return its `{id, command, max_retries, attempts}`. -/
def get_next_job (s : Store) (now : Int) : Option ClaimResult × Store :=
  match pickOldest (s.jobs.filter (fun j => j.eligible now)) with
  | none => (none, s)
  | some j =>
    (some { id := j.id, command := j.command,
            max_retries := j.max_retries, attempts := j.attempts },
     { s with jobs := markProcessing s.jobs j.id })

/-- A claim attempt as seen by the caller, including the
`sqlite3.OperationalError` branch: when the store is lock-busy the
uncommitted transaction is rolled back (the store is unchanged) and the
call returns `none`; otherwise the transaction of `get_next_job` runs. -/
def claim_attempt (s : Store) (now : Int) (lockBusy : Bool) :
    Option ClaimResult × Store :=
  if lockBusy then (none, s) else get_next_job s now

/-- The `move_to_dlq` operation: `DELETE FROM jobs WHERE id=?` then
`INSERT OR REPLACE INTO dlq` a record carrying the claimed job's command
and `max_retries` and the final `attempts`; `failed_at` takes the implicit
`CURRENT_TIMESTAMP` default `now`. -/
def move_to_dlq (s : Store) (job : ClaimResult) (attempts : Nat) (now : Int) :
    Store :=
  { s with
    jobs := s.jobs.filter (fun j => j.id ≠ job.id),
    dlq := (s.dlq.filter (fun r => r.id ≠ job.id)) ++
      [{ id := job.id, command := job.command, max_retries := job.max_retries,
         attempts := attempts, failed_at := now }] }

/-- The `finish_job` operation: `DELETE FROM jobs WHERE id=?`. -/
def finish_job (s : Store) (job_id : String) : Store :=
  { s with jobs := s.jobs.filter (fun j => j.id ≠ job_id) }

/-- Row update of
`UPDATE jobs SET attempts=?, state='pending', next_run=? WHERE id=?`. -/
def rescheduleRows (jobs : List Job) (i : String) (attempts : Nat)
    (next_run : Int) : List Job :=
  jobs.map (fun j =>
    if j.id = i then
      { j with attempts := attempts, state := .pending, next_run := next_run }
    else j)

/-- The `schedule_retry` operation: `delay = backoff_base ** attempts`,
`next_run = now + delay`, then the reschedule row update. -/
def schedule_retry (s : Store) (job : ClaimResult) (attempts : Nat)
    (backoff_base : Int) (now : Int) : Store :=
  let delay := backoff_base ^ attempts
  let next_run := now + delay
  { s with jobs := rescheduleRows s.jobs job.id attempts next_run }

/-- Row update of `UPDATE jobs SET attempts = attempts + 1 WHERE id=?`. -/
def incAttempts (jobs : List Job) (i : String) : List Job :=
  jobs.map (fun j => if j.id = i then { j with attempts := j.attempts + 1 } else j)

/-- The failure branch of `run_job` (non-zero exit code):
`UPDATE jobs SET attempts = attempts + 1 WHERE id=?`, re-read `attempts`
from the table (`none` models the crash when the row is gone),
take `max_retries` from the claimed job dict and `backoff_base` from the
config table now, then either `move_to_dlq` (when `attempts > max_retries`)
or `schedule_retry`. -/
def handle_failure (s : Store) (job : ClaimResult) (now : Int) : Option Store :=
  let s1 : Store := { s with jobs := incAttempts s.jobs job.id }
  match s1.jobs.find? (fun j => j.id = job.id) with
  | none => none
  | some row =>
    let attempts := row.attempts
    let max_retries := job.max_retries
    let backoff_base := get_config_or s1 "backoff_base" 2
    if (attempts : Int) > max_retries then
      some (move_to_dlq s1 job attempts now)
    else
      some (schedule_retry s1 job attempts backoff_base now)

/-- The `dlq_retry` operation: look the id up in the `dlq` table; when
absent, report and change nothing; when present, delete the DLQ record and
`INSERT OR REPLACE` a fresh active job with the record's command and
`max_retries`, `attempts = 0`, `state = 'pending'`, `next_run = 0`;
`enqueued_at` takes the implicit `CURRENT_TIMESTAMP` default `now`. -/
def dlq_retry (s : Store) (job_id : String) (now : Int) : Store :=
  match s.dlq.find? (fun r => r.id = job_id) with
  | none => s
  | some row =>
    { s with
      dlq := s.dlq.filter (fun r => r.id ≠ job_id),
      jobs := (s.jobs.filter (fun j => j.id ≠ row.id)) ++
        [{ id := row.id, command := row.command, max_retries := row.max_retries,
           attempts := 0, state := .pending, enqueued_at := now, next_run := 0 }] }

/-- Membership of an id in the active `jobs` table. -/
def Store.hasJob (s : Store) (i : String) : Bool :=
  s.jobs.any (fun j => j.id = i)

/-- Membership of an id in the `dlq` table. -/
def Store.hasDlq (s : Store) (i : String) : Bool :=
  s.dlq.any (fun r => r.id = i)

/-- Disjointness of the two tables: no id occurs both as an active job and
as a DLQ record. -/
def DisjointTables (s : Store) : Prop :=
  ∀ j ∈ s.jobs, ∀ r ∈ s.dlq, j.id ≠ r.id

instance (s : Store) : Decidable (DisjointTables s) :=
  inferInstanceAs (Decidable (∀ j ∈ s.jobs, ∀ r ∈ s.dlq, j.id ≠ r.id))

/-! ### Helper lemmas about the selection function and list operations -/

theorem pickOldest_eq_none {l : List Job} : pickOldest l = none ↔ l = [] := by
  cases l with
  | nil => simp [pickOldest]
  | cons j rest =>
    simp only [pickOldest]
    cases hr : pickOldest rest with
    | none => simp
    | some k =>
      by_cases hc : k.enqueued_at < j.enqueued_at <;> simp [hc]

theorem pickOldest_mem {l : List Job} {j : Job} (h : pickOldest l = some j) :
    j ∈ l := by
  induction l with
  | nil => simp [pickOldest] at h
  | cons a rest ih =>
    simp only [pickOldest] at h
    cases hr : pickOldest rest with
    | none =>
      rw [hr] at h
      simp only [Option.some.injEq] at h
      simp [h]
    | some k =>
      rw [hr] at h
      by_cases hc : k.enqueued_at < a.enqueued_at
      · simp only [hc, if_true, Option.some.injEq] at h
        subst h
        exact List.mem_cons_of_mem _ (ih hr)
      · simp only [hc, if_false, Option.some.injEq] at h
        simp [h]

theorem pickOldest_min {l : List Job} :
    ∀ {j : Job}, pickOldest l = some j →
      ∀ k ∈ l, j.enqueued_at ≤ k.enqueued_at := by
  induction l with
  | nil => intro j h; simp [pickOldest] at h
  | cons a rest ih =>
    intro j h
    simp only [pickOldest] at h
    cases hr : pickOldest rest with
    | none =>
      rw [hr] at h
      simp only [Option.some.injEq] at h
      subst h
      have : rest = [] := pickOldest_eq_none.mp hr
      subst this
      intro k hk
      simp at hk
      simp [hk]
    | some b =>
      rw [hr] at h
      by_cases hc : b.enqueued_at < a.enqueued_at
      · simp only [hc, if_true, Option.some.injEq] at h
        subst h
        intro k hk
        rcases List.mem_cons.mp hk with rfl | hk
        · exact le_of_lt hc
        · exact ih hr k hk
      · simp only [hc, if_false, Option.some.injEq] at h
        subst h
        intro k hk
        rcases List.mem_cons.mp hk with rfl | hk
        · exact le_refl _
        · exact le_trans (not_lt.mp hc) (ih hr k hk)

theorem find?_id_filter_ne {l : List Job} {x : String} :
    (l.filter (fun j => j.id ≠ x)).find? (fun j => j.id = x) = none := by
  rw [List.find?_eq_none]
  intro j hj
  have := (List.mem_filter.mp hj).2
  simpa using this

theorem find?_id_append_single {l : List Job} {x : String} {j : Job}
    (hj : j.id = x) :
    ((l.filter (fun k => k.id ≠ x)) ++ [j]).find? (fun k => k.id = x) = some j := by
  rw [List.find?_append, find?_id_filter_ne]
  simp [List.find?, hj]

theorem countP_id_filter_ne {l : List Job} {x : String} :
    (l.filter (fun j => j.id ≠ x)).countP (fun j => j.id = x) = 0 := by
  rw [List.countP_eq_zero]
  intro j hj
  have := (List.mem_filter.mp hj).2
  simpa using this

theorem find?_dlq_filter_ne {l : List DlqRecord} {x : String} :
    (l.filter (fun r => r.id ≠ x)).find? (fun r => r.id = x) = none := by
  rw [List.find?_eq_none]
  intro r hr
  have := (List.mem_filter.mp hr).2
  simpa using this

theorem find?_dlq_append_single {l : List DlqRecord} {x : String} {r : DlqRecord}
    (hr : r.id = x) :
    ((l.filter (fun b => b.id ≠ x)) ++ [r]).find? (fun b => b.id = x) = some r := by
  rw [List.find?_append, find?_dlq_filter_ne]
  simp [List.find?, hr]

theorem find?_map_ite {jobs : List Job} {i : String} (f : Job → Job)
    (hf : ∀ j, (f j).id = j.id) :
    (jobs.map (fun j => if j.id = i then f j else j)).find? (fun j => j.id = i)
      = (jobs.find? (fun j => j.id = i)).map f := by
  induction jobs with
  | nil => simp
  | cons a rest ih =>
    by_cases ha : a.id = i
    · rw [List.map_cons, if_pos ha,
        List.find?_cons_of_pos _ (by simp [hf a, ha]),
        List.find?_cons_of_pos _ (by simp [ha])]
      simp
    · rw [List.map_cons, if_neg ha,
        List.find?_cons_of_neg _ (by simp [ha]),
        List.find?_cons_of_neg _ (by simp [ha])]
      exact ih

theorem mem_map_ite_id {jobs : List Job} {i : String} (f : Job → Job)
    (hf : ∀ j, (f j).id = j.id) {j : Job}
    (hj : j ∈ jobs.map (fun k => if k.id = i then f k else k)) :
    ∃ k ∈ jobs, j.id = k.id := by
  rcases List.mem_map.mp hj with ⟨k, hk, hfk⟩
  refine ⟨k, hk, ?_⟩
  by_cases hki : k.id = i
  · rw [← hfk, if_pos hki, hf]
  · rw [← hfk, if_neg hki]

theorem mem_markProcessing_exists {jobs : List Job} {i : String} {j : Job}
    (hj : j ∈ markProcessing jobs i) : ∃ k ∈ jobs, j.id = k.id :=
  mem_map_ite_id (fun k => { k with state := JobState.processing })
    (fun _ => rfl) hj

theorem mem_incAttempts_exists {jobs : List Job} {i : String} {j : Job}
    (hj : j ∈ incAttempts jobs i) : ∃ k ∈ jobs, j.id = k.id :=
  mem_map_ite_id (fun k => { k with attempts := k.attempts + 1 })
    (fun _ => rfl) hj

theorem mem_rescheduleRows_exists {jobs : List Job} {i : String} {att : Nat}
    {nr : Int} {j : Job} (hj : j ∈ rescheduleRows jobs i att nr) :
    ∃ k ∈ jobs, j.id = k.id :=
  mem_map_ite_id
    (fun k => { k with attempts := att, state := JobState.pending, next_run := nr })
    (fun _ => rfl) hj

theorem mem_markProcessing_of_id {jobs : List Job} {i : String} {j : Job}
    (hj : j ∈ markProcessing jobs i) (hid : j.id = i) :
    j.state = JobState.processing := by
  rcases List.mem_map.mp hj with ⟨k, _, hfk⟩
  by_cases hki : k.id = i
  · rw [← hfk, if_pos hki]
  · rw [if_neg hki] at hfk
    subst hfk
    exact absurd hid hki

theorem find?_enqueue (s : Store) (p : Payload) (t : Int) :
    (enqueue s p t).jobs.find? (fun j => j.id = p.id) =
      some { id := p.id, command := p.command,
             max_retries := p.max_retries.getD (get_config_or s "max_retries" 3),
             attempts := 0, state := JobState.pending,
             enqueued_at := t, next_run := 0 } :=
  find?_id_append_single rfl

theorem find?_incAttempts {jobs : List Job} {i : String} :
    (incAttempts jobs i).find? (fun j => j.id = i)
      = (jobs.find? (fun j => j.id = i)).map
          (fun j => { j with attempts := j.attempts + 1 }) :=
  find?_map_ite _ (fun _ => rfl)

theorem find?_rescheduleRows {jobs : List Job} {i : String} {att : Nat} {nr : Int} :
    (rescheduleRows jobs i att nr).find? (fun j => j.id = i)
      = (jobs.find? (fun j => j.id = i)).map
          (fun j => { j with attempts := att, state := JobState.pending, next_run := nr }) :=
  find?_map_ite _ (fun _ => rfl)

/-! ### Claim protocol characterization -/

theorem get_next_job_none {s : Store} {now : Int}
    (h : (get_next_job s now).1 = none) :
    (get_next_job s now).2 = s ∧
      ∀ j ∈ s.jobs, ¬(j.state = JobState.pending ∧ j.next_run ≤ now) := by
  unfold get_next_job at h ⊢
  cases hp : pickOldest (s.jobs.filter (fun j => j.eligible now)) with
  | none =>
    refine ⟨rfl, ?_⟩
    have hnil := pickOldest_eq_none.mp hp
    rw [List.filter_eq_nil_iff] at hnil
    intro j hj hcon
    exact hnil j hj (by simpa [Job.eligible] using hcon)
  | some j => rw [hp] at h; simp at h

theorem get_next_job_some {s : Store} {now : Int} {r : ClaimResult}
    (h : (get_next_job s now).1 = some r) :
    ∃ j ∈ s.jobs,
      (j.state = JobState.pending ∧ j.next_run ≤ now) ∧
      r = { id := j.id, command := j.command,
            max_retries := j.max_retries, attempts := j.attempts } ∧
      (∀ k ∈ s.jobs, k.state = JobState.pending → k.next_run ≤ now →
        j.enqueued_at ≤ k.enqueued_at) ∧
      (get_next_job s now).2 = { s with jobs := markProcessing s.jobs j.id } := by
  unfold get_next_job at h ⊢
  cases hp : pickOldest (s.jobs.filter (fun j => j.eligible now)) with
  | none => rw [hp] at h; simp at h
  | some j =>
    rw [hp] at h
    simp only [Option.some.injEq] at h
    have hmem := pickOldest_mem hp
    have hel : j.eligible now := (List.mem_filter.mp hmem).2
    have hel' : j.state = JobState.pending ∧ j.next_run ≤ now := by
      simpa [Job.eligible] using hel
    refine ⟨j, (List.mem_filter.mp hmem).1, hel', h.symm, ?_, rfl⟩
    intro k hk hks hkn
    exact pickOldest_min hp k
      (List.mem_filter.mpr ⟨hk, by simp [Job.eligible, hks, hkn]⟩)

/-! ### Concrete fixtures used by witnesses -/

/-- A pending job submitted at time 1. -/
def jobA : Job :=
  { id := "a", command := "echo 1", max_retries := 3, attempts := 0,
    state := .pending, enqueued_at := 1, next_run := 0 }

/-- A pending job submitted at time 2. -/
def jobB : Job :=
  { id := "b", command := "echo 2", max_retries := 3, attempts := 0,
    state := .pending, enqueued_at := 2, next_run := 0 }

/-- A store with two eligible jobs, listed youngest first so the FIFO
tie-break is visible. -/
def storeAB : Store :=
  { jobs := [jobB, jobA], dlq := [],
    config := [("backoff_base", 2), ("max_retries", 3)] }

/-- Config table used by all concrete fixtures. -/
def cfg2 : List (String × Int) := [("backoff_base", 2), ("max_retries", 3)]

/-- Job `x` (budget 3) as claimed before its first failure. -/
def jobX0 : Job :=
  { id := "x", command := "boom", max_retries := 3, attempts := 0,
    state := .processing, enqueued_at := 0, next_run := 0 }

/-- Job `x` as claimed before its second failure. -/
def jobX1 : Job :=
  { id := "x", command := "boom", max_retries := 3, attempts := 1,
    state := .processing, enqueued_at := 0, next_run := 102 }

/-- Store holding `x` mid-execution before its first failure. -/
def storeX0 : Store := { jobs := [jobX0], dlq := [], config := cfg2 }

/-- Store holding `x` mid-execution before its second failure. -/
def storeX1 : Store := { jobs := [jobX1], dlq := [], config := cfg2 }

/-- Claim record the worker holds for `x` before its first failure. -/
def claimX0 : ClaimResult :=
  { id := "x", command := "boom", max_retries := 3, attempts := 0 }

/-- Claim record the worker holds for `x` before its second failure. -/
def claimX1 : ClaimResult :=
  { id := "x", command := "boom", max_retries := 3, attempts := 1 }

/-- Job `y` (budget 1) as claimed before its first failure. -/
def jobY0 : Job :=
  { id := "y", command := "boom", max_retries := 1, attempts := 0,
    state := .processing, enqueued_at := 0, next_run := 0 }

/-- Job `y` as claimed before its second failure. -/
def jobY1 : Job :=
  { id := "y", command := "boom", max_retries := 1, attempts := 1,
    state := .processing, enqueued_at := 0, next_run := 52 }

/-- Store holding `y` mid-execution before its first failure. -/
def storeY0 : Store := { jobs := [jobY0], dlq := [], config := cfg2 }

/-- Store holding `y` mid-execution before its second failure. -/
def storeY1 : Store := { jobs := [jobY1], dlq := [], config := cfg2 }

/-- Claim record the worker holds for `y` before its first failure. -/
def claimY0 : ClaimResult :=
  { id := "y", command := "boom", max_retries := 1, attempts := 0 }

/-- Claim record the worker holds for `y` before its second failure. -/
def claimY1 : ClaimResult :=
  { id := "y", command := "boom", max_retries := 1, attempts := 1 }

/-! ### C1 -/

/-- **C1**: the claim operation considers exactly the jobs with
`state = pending` and `next_run <= now`.  When none exists it returns
`none` and leaves the store unchanged; when one exists it returns the
`{id, command, max_retries, attempts}` of an eligible job with minimal
`enqueued_at` and marks exactly that id `processing`. -/
theorem claim_protocol_correct (s : Store) (now : Int) :
    ((get_next_job s now).1 = none →
      (get_next_job s now).2 = s ∧
        ∀ j ∈ s.jobs, ¬(j.state = JobState.pending ∧ j.next_run ≤ now)) ∧
    (∀ r, (get_next_job s now).1 = some r →
      ∃ j ∈ s.jobs,
        (j.state = JobState.pending ∧ j.next_run ≤ now) ∧
        r = { id := j.id, command := j.command,
              max_retries := j.max_retries, attempts := j.attempts } ∧
        (∀ k ∈ s.jobs, k.state = JobState.pending → k.next_run ≤ now →
          j.enqueued_at ≤ k.enqueued_at) ∧
        (get_next_job s now).2 = { s with jobs := markProcessing s.jobs j.id }) :=
  ⟨fun h => get_next_job_none h, fun _ h => get_next_job_some h⟩

/-- Witness for C1 at a concrete two-job store: the claim at time 5
returns job `a` (the FIFO-oldest eligible job). -/
theorem claim_protocol_correct_witness :
    ∃ j ∈ storeAB.jobs,
      (j.state = JobState.pending ∧ j.next_run ≤ 5) ∧
      ({ id := "a", command := "echo 1", max_retries := 3, attempts := 0 } :
          ClaimResult) =
        { id := j.id, command := j.command,
          max_retries := j.max_retries, attempts := j.attempts } ∧
      (∀ k ∈ storeAB.jobs, k.state = JobState.pending → k.next_run ≤ 5 →
        j.enqueued_at ≤ k.enqueued_at) ∧
      (get_next_job storeAB 5).2 =
        { storeAB with jobs := markProcessing storeAB.jobs j.id } :=
  (claim_protocol_correct storeAB 5).2
    { id := "a", command := "echo 1", max_retries := 3, attempts := 0 }
    (by decide)

/-! ### C2 -/

/-- **C2**: claim calls are serialized by the process-wide lock and the
exclusive store transaction, so any two claim calls execute in some order;
in either order, when both succeed they return different job ids — no job
is ever claimed twice while still pending/processing. -/
theorem at_most_one_claim (s : Store) (now₁ now₂ : Int) (r₁ r₂ : ClaimResult)
    (h₁ : (get_next_job s now₁).1 = some r₁)
    (h₂ : (get_next_job (get_next_job s now₁).2 now₂).1 = some r₂) :
    r₁.id ≠ r₂.id := by
  rcases get_next_job_some h₁ with ⟨j₁, _, _, hr₁, _, hs₁⟩
  rcases get_next_job_some h₂ with ⟨j₂, hj₂mem, hj₂el, hr₂, _, _⟩
  rw [hs₁] at hj₂mem
  intro heq
  have hid₁ : r₁.id = j₁.id := by rw [hr₁]
  have hid₂ : r₂.id = j₂.id := by rw [hr₂]
  have hj₂id : j₂.id = j₁.id := by rw [← hid₂, ← heq, hid₁]
  have := mem_markProcessing_of_id hj₂mem hj₂id
  rw [this] at hj₂el
  exact absurd hj₂el.1 (by simp)

/-- Witness for C2: on the concrete two-job store, two successive claims
return jobs `a` then `b`, and their ids differ. -/
theorem at_most_one_claim_witness :
    ({ id := "a", command := "echo 1", max_retries := 3, attempts := 0 } :
        ClaimResult).id ≠
      ({ id := "b", command := "echo 2", max_retries := 3, attempts := 0 } :
        ClaimResult).id :=
  at_most_one_claim storeAB 5 5
    { id := "a", command := "echo 1", max_retries := 3, attempts := 0 }
    { id := "b", command := "echo 2", max_retries := 3, attempts := 0 }
    (by decide) (by decide)

/-! ### C6 -/

/-- **C6**: submission has upsert semantics keyed on `id`: submitting the
same id twice leaves exactly one active job with that id, and it carries
the command of the latest submission. -/
theorem enqueue_upsert (s : Store) (p₁ p₂ : Payload) (t₁ t₂ : Int)
    (_hid : p₁.id = p₂.id) :
    (enqueue (enqueue s p₁ t₁) p₂ t₂).jobs.countP (fun j => j.id = p₂.id) = 1 ∧
    ((enqueue (enqueue s p₁ t₁) p₂ t₂).jobs.find? (fun j => j.id = p₂.id)).map
        (fun j => j.command) = some p₂.command := by
  constructor
  · show ((_ ++ [_] : List Job)).countP _ = 1
    rw [List.countP_append, countP_id_filter_ne]
    simp [List.countP_cons]
  · rw [find?_enqueue]
    rfl

/-- Witness for C6: submitting id `x` with command `old` then command
`new` into the fresh store leaves one job `x`, with command `new`. -/
theorem enqueue_upsert_witness :
    (enqueue (enqueue initStore { id := "x", command := "old", max_retries := some 3 } 1)
        { id := "x", command := "new", max_retries := some 2 } 2).jobs.countP
      (fun j => j.id = ({ id := "x", command := "new", max_retries := some 2 } : Payload).id) = 1 ∧
    ((enqueue (enqueue initStore { id := "x", command := "old", max_retries := some 3 } 1)
        { id := "x", command := "new", max_retries := some 2 } 2).jobs.find?
      (fun j => j.id = ({ id := "x", command := "new", max_retries := some 2 } : Payload).id)).map
        (fun j => j.command) =
      some ({ id := "x", command := "new", max_retries := some 2 } : Payload).command :=
  enqueue_upsert initStore
    { id := "x", command := "old", max_retries := some 3 }
    { id := "x", command := "new", max_retries := some 2 } 1 2 (by decide)

/-! ### C8 -/

/-- **C8**: a claim attempt that hits transient store contention
(`sqlite3.OperationalError`, the lock-busy condition) returns
"no job available" instead of propagating an error, and the rollback of
the uncommitted claim transaction leaves the store unchanged. -/
theorem contention_returns_none (s : Store) (now : Int) :
    (claim_attempt s now true).1 = none ∧ (claim_attempt s now true).2 = s :=
  ⟨rfl, rfl⟩

/-! ### C9 -/

/-- **C9**: a DLQ retry for an id that is not in the DLQ reports the
missing target and changes nothing: the store (both the jobs table and
the DLQ table) is returned untouched. -/
theorem dlq_retry_unknown_id (s : Store) (i : String) (now : Int)
    (h : s.hasDlq i = false) :
    dlq_retry s i now = s := by
  have h' : ∀ r ∈ s.dlq, ¬ r.id = i := by
    simpa [Store.hasDlq] using h
  have hf : s.dlq.find? (fun r => r.id = i) = none := by
    rw [List.find?_eq_none]
    intro r hr
    simpa using h' r hr
  unfold dlq_retry
  rw [hf]

/-- Witness for C9: retrying the absent id `zzz` on the two-job store is
the identity. -/
theorem dlq_retry_unknown_id_witness :
    dlq_retry storeAB "zzz" 7 = storeAB :=
  dlq_retry_unknown_id storeAB "zzz" 7 (by decide)

/-! ### C10 -/

/-- **C10**: enqueueing a payload whose id already exists in the active
table — whatever state the existing job is in, including `processing` —
unconditionally stores a job with `attempts = 0`, `state = pending`,
`next_run = 0` and the new command, which is again eligible for claiming
at any non-negative time. -/
theorem enqueue_resets_existing (s : Store) (p : Payload) (now now₂ : Int)
    (j : Job) (_hj : j ∈ s.jobs) (_hid : j.id = p.id) :
    ∃ nj, (enqueue s p now).jobs.find? (fun k => k.id = p.id) = some nj ∧
      nj.command = p.command ∧ nj.attempts = 0 ∧ nj.state = JobState.pending ∧
      nj.next_run = 0 ∧ (0 ≤ now₂ → nj.eligible now₂ = true) := by
  refine ⟨{ id := p.id, command := p.command,
            max_retries := p.max_retries.getD (get_config_or s "max_retries" 3),
            attempts := 0, state := .pending, enqueued_at := now, next_run := 0 },
    find?_enqueue s p now, rfl, rfl, rfl, rfl, ?_⟩
  intro h
  simp [Job.eligible, h]

/-- Witness for C10: re-submitting id `x` while its job is mid-execution
(`processing`) makes it pending and immediately claimable. -/
theorem enqueue_resets_existing_witness :
    ∃ nj, (enqueue
        { jobs := [{ id := "x", command := "old", max_retries := 1, attempts := 1,
                     state := .processing, enqueued_at := 1, next_run := 0 }],
          dlq := [], config := [("backoff_base", 2), ("max_retries", 3)] }
        { id := "x", command := "retry me", max_retries := some 1 } 10).jobs.find?
          (fun k => k.id = ({ id := "x", command := "retry me", max_retries := some 1 } : Payload).id) = some nj ∧
      nj.command = ({ id := "x", command := "retry me", max_retries := some 1 } : Payload).command ∧
      nj.attempts = 0 ∧ nj.state = JobState.pending ∧
      nj.next_run = 0 ∧ (0 ≤ (11 : Int) → nj.eligible 11 = true) :=
  enqueue_resets_existing
    { jobs := [{ id := "x", command := "old", max_retries := 1, attempts := 1,
                 state := .processing, enqueued_at := 1, next_run := 0 }],
      dlq := [], config := [("backoff_base", 2), ("max_retries", 3)] }
    { id := "x", command := "retry me", max_retries := some 1 } 10 11
    { id := "x", command := "old", max_retries := 1, attempts := 1,
      state := .processing, enqueued_at := 1, next_run := 0 }
    (by decide) (by decide)

/-! ### C3 and C4: the retry/backoff decision of `run_job` -/

theorem handle_failure_eq (s : Store) (job : ClaimResult) (now : Int) :
    handle_failure s job now =
      match (incAttempts s.jobs job.id).find? (fun j => j.id = job.id) with
      | none => none
      | some row =>
        if (row.attempts : Int) > job.max_retries then
          some (move_to_dlq { s with jobs := incAttempts s.jobs job.id } job
            row.attempts now)
        else
          some (schedule_retry { s with jobs := incAttempts s.jobs job.id } job
            row.attempts (get_config_or s "backoff_base" 2) now) := rfl

/-- **C3**: a failed execution with retry budget remaining
(`attempts + 1 <= max_retries`) increments `attempts`, sets the job back
to `pending`, and sets `next_run = now + backoff_base ^ attempts` with
`attempts` counted after the increment and `backoff_base` read from the
config table at decision time; the DLQ and config are untouched. -/
theorem failure_with_budget_reschedules (s : Store) (job : ClaimResult)
    (now : Int) (row : Job)
    (hrow : s.jobs.find? (fun j => j.id = job.id) = some row)
    (hbudget : (row.attempts : Int) + 1 ≤ job.max_retries) :
    ∃ s₂, handle_failure s job now = some s₂ ∧
      s₂.jobs.find? (fun j => j.id = job.id) =
        some { row with attempts := row.attempts + 1, state := JobState.pending, next_run := now + (get_config_or s "backoff_base" 2) ^ (row.attempts + 1) } ∧
      s₂.dlq = s.dlq ∧ s₂.config = s.config := by
  have hinc : (incAttempts s.jobs job.id).find? (fun j => j.id = job.id)
      = some { row with attempts := row.attempts + 1 } := by
    rw [find?_incAttempts, hrow]
    rfl
  have hcond : ¬((({ row with attempts := row.attempts + 1 } : Job).attempts : Int)
      > job.max_retries) := by
    simp only [not_lt]
    push_cast
    omega
  refine ⟨schedule_retry { s with jobs := incAttempts s.jobs job.id } job
    (row.attempts + 1) (get_config_or s "backoff_base" 2) now, ?_, ?_, rfl, rfl⟩
  · rw [handle_failure_eq, hinc]
    simp only [if_neg hcond]
  · show (rescheduleRows (incAttempts s.jobs job.id) job.id _ _).find? _ = _
    rw [find?_rescheduleRows, hinc]
    rfl

/-- Witness for C3 at concrete stores with `backoff_base = 2`: the first
failure of job `x` (attempts 0 → 1) schedules `next_run = 100 + 2`, and
its second failure (attempts 1 → 2) schedules `next_run = 100 + 4`. -/
theorem failure_with_budget_reschedules_witness :
    (∃ s₂, handle_failure storeX0 claimX0 100 = some s₂ ∧
      s₂.jobs.find? (fun j => j.id = claimX0.id) =
        some { jobX0 with attempts := 1, state := JobState.pending, next_run := 100 + (get_config_or storeX0 "backoff_base" 2) ^ 1 } ∧
      s₂.dlq = storeX0.dlq ∧ s₂.config = storeX0.config) ∧
    (∃ s₂, handle_failure storeX1 claimX1 100 = some s₂ ∧
      s₂.jobs.find? (fun j => j.id = claimX1.id) =
        some { jobX1 with attempts := 2, state := JobState.pending, next_run := 100 + (get_config_or storeX1 "backoff_base" 2) ^ 2 } ∧
      s₂.dlq = storeX1.dlq ∧ s₂.config = storeX1.config) ∧
    100 + (get_config_or storeX0 "backoff_base" 2) ^ 1 = 102 ∧
    100 + (get_config_or storeX1 "backoff_base" 2) ^ 2 = 104 :=
  ⟨failure_with_budget_reschedules storeX0 claimX0 100 jobX0 (by decide) (by decide),
   failure_with_budget_reschedules storeX1 claimX1 100 jobX1 (by decide) (by decide),
   by decide, by decide⟩

/-- **C4**: a failed execution with budget exhausted
(`attempts + 1 > max_retries`) increments `attempts`, deletes the job from
the active table, and inserts a DLQ record carrying the final `attempts`
value; the config is untouched. -/
theorem failure_exhausted_moves_to_dlq (s : Store) (job : ClaimResult)
    (now : Int) (row : Job)
    (hrow : s.jobs.find? (fun j => j.id = job.id) = some row)
    (hexh : job.max_retries < (row.attempts : Int) + 1) :
    ∃ s₂, handle_failure s job now = some s₂ ∧
      (∀ j ∈ s₂.jobs, j.id ≠ job.id) ∧
      s₂.dlq.find? (fun r => r.id = job.id) =
        some { id := job.id, command := job.command,
               max_retries := job.max_retries, attempts := row.attempts + 1,
               failed_at := now } ∧
      s₂.config = s.config := by
  have hinc : (incAttempts s.jobs job.id).find? (fun j => j.id = job.id)
      = some { row with attempts := row.attempts + 1 } := by
    rw [find?_incAttempts, hrow]
    rfl
  have hcond : ((({ row with attempts := row.attempts + 1 } : Job).attempts : Int)
      > job.max_retries) := by
    push_cast
    omega
  refine ⟨move_to_dlq { s with jobs := incAttempts s.jobs job.id } job
    (row.attempts + 1) now, ?_, ?_, ?_, rfl⟩
  · rw [handle_failure_eq, hinc]
    simp only [if_pos hcond]
  · intro j hj
    have hj' : j ∈ (incAttempts s.jobs job.id).filter (fun k => k.id ≠ job.id) := hj
    have := (List.mem_filter.mp hj').2
    simpa using this
  · show ((_ : List DlqRecord).filter _ ++ [_]).find? _ = _
    exact find?_dlq_append_single rfl

/-- Witness for C4: job `y` with `max_retries = 1` whose second failure
(attempts 1 → 2) lands in the DLQ with `attempts = 2` and disappears from
the active table; the first conjunct checks (by evaluation) that its first
failure merely rescheduled it. -/
theorem failure_exhausted_moves_to_dlq_witness :
    ((handle_failure storeY0 claimY0 50).map
      (fun s₂ => s₂.hasJob "y" && !s₂.hasDlq "y") = some true) ∧
    (∃ s₂, handle_failure storeY1 claimY1 60 = some s₂ ∧
      (∀ j ∈ s₂.jobs, j.id ≠ claimY1.id) ∧
      s₂.dlq.find? (fun r => r.id = claimY1.id) =
        some { id := claimY1.id, command := claimY1.command, max_retries := claimY1.max_retries, attempts := 2, failed_at := 60 } ∧
      s₂.config = storeY1.config) :=
  ⟨by decide,
   failure_exhausted_moves_to_dlq storeY1 claimY1 60 jobY1 (by decide) (by decide)⟩

/-! ### C7 -/

/-- **C7**: an operator retry of an id present in the DLQ removes the DLQ
record and re-admits the job as a fresh active record with the same
command and `max_retries`, `state = pending`, `attempts = 0`,
`next_run = 0`. -/
theorem dlq_retry_resurrects (s : Store) (i : String) (now : Int)
    (r : DlqRecord) (hr : s.dlq.find? (fun b => b.id = i) = some r) :
    (dlq_retry s i now).jobs.find? (fun j => j.id = i) =
      some { id := r.id, command := r.command, max_retries := r.max_retries, attempts := 0, state := JobState.pending, enqueued_at := now, next_run := 0 } ∧
    (∀ b ∈ (dlq_retry s i now).dlq, b.id ≠ i) := by
  have hid : r.id = i := by simpa using List.find?_some hr
  subst hid
  have key : dlq_retry s r.id now =
      { s with
        dlq := s.dlq.filter (fun b => b.id ≠ r.id),
        jobs := (s.jobs.filter (fun j => j.id ≠ r.id)) ++ [{ id := r.id, command := r.command, max_retries := r.max_retries, attempts := 0, state := JobState.pending, enqueued_at := now, next_run := 0 }] } := by
    unfold dlq_retry
    rw [hr]
  rw [key]
  constructor
  · exact find?_id_append_single rfl
  · intro b hb
    have hb' : b ∈ s.dlq.filter (fun x => x.id ≠ r.id) := hb
    have := (List.mem_filter.mp hb').2
    simpa using this

/-- A dead-letter record for the exhausted job `y`. -/
def dlqY : DlqRecord :=
  { id := "y", command := "boom", max_retries := 1, attempts := 2, failed_at := 60 }

/-- A store whose only content is the DLQ record for `y`. -/
def storeDlqY : Store := { jobs := [], dlq := [dlqY], config := cfg2 }

/-- Witness for C7: retrying `y` from the concrete DLQ-only store yields a
fresh pending `y` with full budget, and removes the DLQ record. -/
theorem dlq_retry_resurrects_witness :
    (dlq_retry storeDlqY "y" 70).jobs.find? (fun j => j.id = "y") =
      some { id := dlqY.id, command := dlqY.command, max_retries := dlqY.max_retries, attempts := 0, state := JobState.pending, enqueued_at := 70, next_run := 0 } ∧
    (∀ b ∈ (dlq_retry storeDlqY "y" 70).dlq, b.id ≠ "y") :=
  dlq_retry_resurrects storeDlqY "y" 70 dlqY (by decide)

/-! ### C5: jobs/DLQ disjointness -/

/-- First step of the counterexample trace: submit `x` with a zero retry
budget. -/
def cexPayload : Payload := { id := "x", command := "boom", max_retries := some 0 }

/-- The store after submitting `x`. -/
def cexStep1 : Store := enqueue initStore cexPayload 0

/-- The store after a worker claims `x`. -/
def cexStep2 : Store := (get_next_job cexStep1 0).2

/-- The claim record the worker received for `x`. -/
def cexClaim : ClaimResult :=
  { id := "x", command := "boom", max_retries := 0, attempts := 0 }

/-- The store after `x` fails once and, its budget being zero, is moved to
the DLQ. -/
def cexStep3 : Store := (handle_failure cexStep2 cexClaim 0).getD initStore

/-- The re-submission of `x` while its DLQ record still exists. -/
def cexPayload2 : Payload := { id := "x", command := "boom again", max_retries := some 0 }

/-- Counterexample to **C5** as stated: along a genuine operation trace
from the fresh store (submit `x` with budget 0, claim it, fail it into the
DLQ), re-submitting the id `x` leaves `x` both in the active jobs table
and in the DLQ — `enqueue` does not preserve the disjointness invariant,
and the overlap is persistent, not transient. -/
theorem disjointness_counterexample :
    (get_next_job cexStep1 0).1 = some cexClaim ∧
    (handle_failure cexStep2 cexClaim 0).isSome = true ∧
    DisjointTables cexStep3 ∧
    (enqueue cexStep3 cexPayload2 5).hasJob "x" = true ∧
    (enqueue cexStep3 cexPayload2 5).hasDlq "x" = true ∧
    ¬ DisjointTables (enqueue cexStep3 cexPayload2 5) := by
  refine ⟨by decide, by decide, by decide, by decide, by decide, ?_⟩
  intro hdis
  have h1 : (enqueue cexStep3 cexPayload2 5).hasJob "x" = true := by decide
  have h2 : (enqueue cexStep3 cexPayload2 5).hasDlq "x" = true := by decide
  simp only [Store.hasJob, List.any_eq_true] at h1
  simp only [Store.hasDlq, List.any_eq_true] at h2
  rcases h1 with ⟨j, hj, hjx⟩
  rcases h2 with ⟨r, hr, hrx⟩
  exact hdis j hj r hr (by simp at hjx hrx; rw [hjx, hrx])

/-- Disjointness survives replacing the jobs table by rows drawn (up to
id) from the old one. -/
theorem disjoint_update_jobs {s : Store} (hdisj : DisjointTables s)
    {jobs₂ : List Job} (h : ∀ j ∈ jobs₂, ∃ k ∈ s.jobs, j.id = k.id) :
    DisjointTables { s with jobs := jobs₂ } := by
  intro j hj r hr
  rcases h j hj with ⟨k, hk, hik⟩
  rw [hik]
  exact hdisj k hk r hr

/-- Disjointness survives `move_to_dlq`. -/
theorem disjoint_move_to_dlq {s : Store} (hdisj : DisjointTables s)
    (job : ClaimResult) (att : Nat) (now : Int) :
    DisjointTables (move_to_dlq s job att now) := by
  intro j hj r hr
  have hj' : j ∈ s.jobs.filter (fun k => k.id ≠ job.id) := hj
  have hjid : ¬ j.id = job.id := by simpa using (List.mem_filter.mp hj').2
  have hjmem := (List.mem_filter.mp hj').1
  have hr' : r ∈ s.dlq.filter (fun b => b.id ≠ job.id) ++
      [{ id := job.id, command := job.command, max_retries := job.max_retries, attempts := att, failed_at := now }] := hr
  rcases List.mem_append.mp hr' with hrl | hrr
  · exact hdisj j hjmem r (List.mem_filter.mp hrl).1
  · have : r = { id := job.id, command := job.command, max_retries := job.max_retries, attempts := att, failed_at := now } := by
      simpa using hrr
    rw [this]
    exact hjid

/-- **C5** (amended): every engine operation except `enqueue` preserves
the jobs/DLQ disjointness, and `enqueue` preserves it exactly when the
submitted id is not currently in the DLQ (re-submitting a dead-lettered id
violates it, per the counterexample). -/
theorem disjointness_preservation (s : Store) (hdisj : DisjointTables s) :
    (∀ p now, s.hasDlq p.id = false → DisjointTables (enqueue s p now)) ∧
    (∀ now, DisjointTables (get_next_job s now).2) ∧
    (∀ i, DisjointTables (finish_job s i)) ∧
    (∀ job now s₂, handle_failure s job now = some s₂ → DisjointTables s₂) ∧
    (∀ job att now, DisjointTables (move_to_dlq s job att now)) ∧
    (∀ job att base now, DisjointTables (schedule_retry s job att base now)) ∧
    (∀ i now, DisjointTables (dlq_retry s i now)) := by
  refine ⟨?_, ?_, ?_, ?_, ?_, ?_, ?_⟩
  · -- enqueue, provided the id is absent from the DLQ
    intro p now hnot
    have hnot' : ∀ r ∈ s.dlq, ¬ r.id = p.id := by
      simpa [Store.hasDlq] using hnot
    intro j hj r hr
    have hj' : j ∈ (s.jobs.filter (fun k => k.id ≠ p.id)) ++
        [{ id := p.id, command := p.command, max_retries := p.max_retries.getD (get_config_or s "max_retries" 3), attempts := 0, state := JobState.pending, enqueued_at := now, next_run := 0 }] := hj
    rcases List.mem_append.mp hj' with hjl | hjr
    · exact hdisj j (List.mem_filter.mp hjl).1 r hr
    · have : j = { id := p.id, command := p.command, max_retries := p.max_retries.getD (get_config_or s "max_retries" 3), attempts := 0, state := JobState.pending, enqueued_at := now, next_run := 0 } := by
        simpa using hjr
      rw [this]
      exact fun hcon => hnot' r hr (by rw [← hcon])
  · -- claim
    intro now
    have hsplit : (get_next_job s now).2 = s ∨
        ∃ i, (get_next_job s now).2 = { s with jobs := markProcessing s.jobs i } := by
      unfold get_next_job
      cases hp : pickOldest (s.jobs.filter (fun j => j.eligible now)) with
      | none => exact Or.inl rfl
      | some j => exact Or.inr ⟨j.id, rfl⟩
    rcases hsplit with h | ⟨i, h⟩
    · rw [h]; exact hdisj
    · rw [h]
      exact disjoint_update_jobs hdisj (fun j hj => mem_markProcessing_exists hj)
  · -- finish
    intro i j hj r hr
    have hj' : j ∈ s.jobs.filter (fun k => k.id ≠ i) := hj
    exact hdisj j (List.mem_filter.mp hj').1 r hr
  · -- failure handling
    intro job now s₂ h
    rw [handle_failure_eq] at h
    have hdisj₁ : DisjointTables { s with jobs := incAttempts s.jobs job.id } :=
      disjoint_update_jobs hdisj (fun j hj => mem_incAttempts_exists hj)
    cases hfind : (incAttempts s.jobs job.id).find? (fun j => j.id = job.id) with
    | none => rw [hfind] at h; exact absurd h (by simp)
    | some row =>
      rw [hfind] at h
      by_cases hc : (row.attempts : Int) > job.max_retries
      · simp only [if_pos hc] at h
        have := disjoint_move_to_dlq hdisj₁ job row.attempts now
        rwa [← Option.some_inj.mp h]
      · simp only [if_neg hc] at h
        rw [← Option.some_inj.mp h]
        exact disjoint_update_jobs hdisj₁ (fun j hj => mem_rescheduleRows_exists hj)
  · -- explicit move_to_dlq
    intro job att now
    exact disjoint_move_to_dlq hdisj job att now
  · -- schedule_retry
    intro job att base now
    exact disjoint_update_jobs hdisj (fun j hj => mem_rescheduleRows_exists hj)
  · -- dlq_retry
    intro i now
    cases hfind : s.dlq.find? (fun r => r.id = i) with
    | none =>
      have : dlq_retry s i now = s := by unfold dlq_retry; rw [hfind]
      rw [this]; exact hdisj
    | some row =>
      have hid : row.id = i := by simpa using List.find?_some hfind
      have key : dlq_retry s i now =
          { s with
            dlq := s.dlq.filter (fun b => b.id ≠ i),
            jobs := (s.jobs.filter (fun j => j.id ≠ row.id)) ++ [{ id := row.id, command := row.command, max_retries := row.max_retries, attempts := 0, state := JobState.pending, enqueued_at := now, next_run := 0 }] } := by
        unfold dlq_retry
        rw [hfind]
      rw [key]
      intro j hj r hr
      have hr' : r ∈ s.dlq.filter (fun b => b.id ≠ i) := hr
      have hrid : ¬ r.id = i := by simpa using (List.mem_filter.mp hr').2
      have hrmem := (List.mem_filter.mp hr').1
      have hj' : j ∈ (s.jobs.filter (fun k => k.id ≠ row.id)) ++
          [{ id := row.id, command := row.command, max_retries := row.max_retries, attempts := 0, state := JobState.pending, enqueued_at := now, next_run := 0 }] := hj
      rcases List.mem_append.mp hj' with hjl | hjr
      · exact hdisj j (List.mem_filter.mp hjl).1 r hrmem
      · have : j = { id := row.id, command := row.command, max_retries := row.max_retries, attempts := 0, state := JobState.pending, enqueued_at := now, next_run := 0 } := by
          simpa using hjr
        rw [this]
        intro hcon
        exact hrid (by rw [← hcon, hid])

/-- Witness for C5 (amended) on the concrete two-job store: disjointness
holds after an enqueue of a fresh id, after a claim, after a finish, and
after a DLQ retry of an absent id. -/
theorem disjointness_preservation_witness :
    DisjointTables (enqueue storeAB { id := "c", command := "echo 3", max_retries := some 1 } 9) ∧
    DisjointTables (get_next_job storeAB 5).2 ∧
    DisjointTables (finish_job storeAB "a") ∧
    DisjointTables (dlq_retry storeAB "zzz" 9) :=
  have H := disjointness_preservation storeAB (by decide)
  ⟨H.1 { id := "c", command := "echo 3", max_retries := some 1 } 9 (by decide),
   H.2.1 5, H.2.2.1 "a", H.2.2.2.2.2.2 "zzz" 9⟩

end QueueCTL
